import Mathlib

/-!
Verification of the jewelcase image pipeline (jewelcase.go).

Pixels are 8-bit RGBA samples, modelled as natural numbers in [0, 255]
(the RGBA buffers of the Go code store premultiplied bytes).  Go float64
arithmetic on the decimal constants of the pipeline is modelled exactly
over the rationals; Go conversions from float64 to integer types truncate
toward zero, modelled by goTrunc.  External collaborators of the pipeline
are explicit parameters: the x/image bilinear scaler (Scaler), the sampled
trigonometric values of the rotation stage, the random stream, the codecs
and the filesystem.  The embedded frame asset frame.jpg is not part of the
sources; following the specification it is an abstract 884 by 777 buffer
passed to Process as a parameter.
-/

structure Pixel where
  r : Nat
  g : Nat
  b : Nat
  a : Nat
deriving DecidableEq, Repr

def Pixel.zero : Pixel := ⟨0, 0, 0, 0⟩

/-- A pixel buffer: width, height and the stored sample at each coordinate.
Coordinates outside the bounds carry the zero pixel, as Go RGBAAt does. -/
structure Img where
  width : Nat
  height : Nat
  pix : Int → Int → Pixel

/-- Coordinate inside the buffer bounds. -/
abbrev Img.inB (img : Img) (x y : Int) : Prop :=
  0 ≤ x ∧ x < (img.width : Int) ∧ 0 ≤ y ∧ y < (img.height : Int)

/-- Every Go effect stage allocates a zero-initialised buffer with the bounds
of its input and writes every in-bounds pixel in a loop. -/
def perPixel (img : Img) (f : Int → Int → Pixel) : Img :=
  ⟨img.width, img.height, fun x y => if img.inB x y then f x y else Pixel.zero⟩

/-- Go conversion from float64 to an integer type truncates toward zero. -/
def goTrunc (q : ℚ) : Int := if 0 ≤ q then ⌊q⌋ else -⌊-q⌋

/-- Go integer division truncates toward zero. -/
def goIntDiv (a b : Int) : Int := if 0 ≤ a then a / b else -((-a) / b)

def targetWidth : Nat := 750

def targetHeight : Nat := 750

def frameOffsetX : Int := 98

def frameOffsetY : Int := 13

/-- Options from jewelcase.go, one boolean per effect plus force. -/
structure Options where
  colourCorrection : Bool
  roundedCorners : Bool
  edgeSoftening : Bool
  randomOffset : Bool
  randomRotation : Bool
  reflection : Bool
  force : Bool
deriving DecidableEq, Repr

/-- Abstract bilinear scaler (xdraw.BiLinear.Scale, an external library):
given the source image and the destination buffer width and height it yields
the pixel written at a destination coordinate. -/
def Scaler : Type := Img → Nat → Nat → Int → Int → Pixel

/-- Geometry stage scaleAndCrop: cover-scale to at least 750 in both axes,
then centre-crop to exactly 750 by 750.  The scaled buffer content comes from
the abstract scaler; the output buffer is allocated at the target size and
filled by draw.Draw with source point (cropX, cropY), which clips against the
scaled buffer bounds and leaves unreached pixels zero. -/
def scaleAndCrop (bl : Scaler) (albumArt : Img) : Img :=
  let w : ℚ := albumArt.width
  let h : ℚ := albumArt.height
  let scale : ℚ := max ((targetWidth : ℚ) / w) ((targetHeight : ℚ) / h)
  let scaledWidth : Int := goTrunc (w * scale)
  let scaledHeight : Int := goTrunc (h * scale)
  let sw : Nat := scaledWidth.toNat
  let sh : Nat := scaledHeight.toNat
  let scaled : Img := ⟨sw, sh, fun x y =>
    if 0 ≤ x ∧ x < (sw : Int) ∧ 0 ≤ y ∧ y < (sh : Int) then bl albumArt sw sh x y
    else Pixel.zero⟩
  let cropX : Int := goIntDiv (scaledWidth - (targetWidth : Int)) 2
  let cropY : Int := goIntDiv (scaledHeight - (targetHeight : Int)) 2
  ⟨targetWidth, targetHeight, fun x y =>
    if 0 ≤ x ∧ x < (targetWidth : Int) ∧ 0 ≤ y ∧ y < (targetHeight : Int) ∧
       0 ≤ x + cropX ∧ x + cropX < (sw : Int) ∧ 0 ≤ y + cropY ∧ y + cropY < (sh : Int) then
      scaled.pix (x + cropX) (y + cropY)
    else Pixel.zero⟩

/-- Clamp to [0, 255] and quantise to a byte, as in
uint8(math.Max(0, math.Min(255, v))). -/
def q8 (q : ℚ) : Nat := (goTrunc (max 0 (min 255 q))).toNat

/-- Loop body of applyColourCorrection.  The Go code re-reads the stored
bytes through At().RGBA() and a right shift by 8, which returns the stored
8-bit channel values of an RGBA buffer unchanged. -/
def ccPixel (p : Pixel) : Pixel :=
  let fr0 : ℚ := p.r
  let fg0 : ℚ := p.g
  let fb0 : ℚ := p.b
  let avg : ℚ := (fr0 + fg0 + fb0) / 3
  let fr1 : ℚ := fr0 * 0.9 + avg * 0.1
  let fg1 : ℚ := fg0 * 0.9 + avg * 0.1
  let fb1 : ℚ := fb0 * 0.9 + avg * 0.1
  let fr2 : ℚ := fr1 * 0.95 + 128 * 0.05
  let fg2 : ℚ := fg1 * 0.95 + 128 * 0.05
  let fb2 : ℚ := fb1 * 0.95 + 128 * 0.05
  let fb3 : ℚ := min 255 (fb2 * 1.02)
  ⟨q8 fr2, q8 fg2, q8 fb3, p.a⟩

def applyColourCorrection (img : Img) : Img :=
  perPixel img (fun x y => ccPixel (img.pix x y))

/-- Storing a color.NRGBA value into an RGBA buffer goes through NRGBA.RGBA,
which premultiplies: the 16-bit channel is c*257*a/255 and the stored byte is
its right shift by 8; the 16-bit alpha is a*257. -/
def nrgbaStore (r g b a : Nat) : Pixel :=
  ⟨r * 257 * a / 255 / 256, g * 257 * a / 255 / 256, b * 257 * a / 255 / 256, a * 257 / 256⟩

/-- Minimum distance of coordinate (x, y) to the four edges of the buffer,
as computed by applyEdgeSoftening. -/
def edgeMinDist (img : Img) (x y : Int) : ℚ :=
  min (min (x : ℚ) ((img.width : ℚ) - (x : ℚ) - 1))
    (min (y : ℚ) ((img.height : ℚ) - (y : ℚ) - 1))

def applyEdgeSoftening (img : Img) : Img :=
  perPixel img (fun x y =>
    let minDist := edgeMinDist img x y
    if minDist < 2 then
      let alpha := minDist / 2
      if alpha < 1 then
        let p := img.pix x y
        nrgbaStore p.r p.g p.b (goTrunc (255 * alpha)).toNat
      else img.pix x y
    else img.pix x y)

/-- shouldRound from the source tests
sqrt((radius-dist1)*(radius-dist1) + (radius-dist2)*(radius-dist2)) - radius > 0.
The square root argument is a sum of squares, so the test is equivalent to
radius < 0 or that sum exceeding radius^2; this decidable form is used here and
the lemma shouldRound_iff_sqrt below proves it equal to the square-root form. -/
def shouldRound (dist1 dist2 radius : ℚ) : Bool :=
  if dist1 ≥ radius ∨ dist2 ≥ radius then false
  else
    decide (radius < 0 ∨
      (radius - dist1) * (radius - dist1) + (radius - dist2) * (radius - dist2) >
        radius * radius)

/-- applyRoundedCorners; u1 to u4 are the four random draws, in the order the
source makes them (top left, top right, bottom left, bottom right), each
turned into a radius 6 + u*6. -/
def applyRoundedCorners (img : Img) (u1 u2 u3 u4 : ℚ) : Img :=
  let topLeftRadius : ℚ := 6 + u1 * 6
  let topRightRadius : ℚ := 6 + u2 * 6
  let bottomLeftRadius : ℚ := 6 + u3 * 6
  let bottomRightRadius : ℚ := 6 + u4 * 6
  perPixel img (fun x y =>
    let distFromLeft : ℚ := x
    let distFromRight : ℚ := (img.width : ℚ) - (x : ℚ) - 1
    let distFromTop : ℚ := y
    let distFromBottom : ℚ := (img.height : ℚ) - (y : ℚ) - 1
    if shouldRound distFromLeft distFromTop topLeftRadius ||
       shouldRound distFromRight distFromTop topRightRadius ||
       shouldRound distFromLeft distFromBottom bottomLeftRadius ||
       shouldRound distFromRight distFromBottom bottomRightRadius then
      Pixel.zero
    else img.pix x y)

def applyReflection (img : Img) : Img :=
  perPixel img (fun x y =>
    let p := img.pix x y
    let fx : ℚ := (x : ℚ) / (targetWidth : ℚ)
    let fy : ℚ := (y : ℚ) / (targetHeight : ℚ)
    let reflectionIntensity : ℚ := max 0 (0.3 * (1 - (fx + fy) / 2))
    ⟨(goTrunc (min 255 ((p.r : ℚ) + reflectionIntensity * 40))).toNat,
     (goTrunc (min 255 ((p.g : ℚ) + reflectionIntensity * 40))).toNat,
     (goTrunc (min 255 ((p.b : ℚ) + reflectionIntensity * 40))).toNat,
     p.a⟩)

/-- Downscale factor of the rotation stage, min(1/(|cos|+|sin|), 1), from the
cosine and sine of the sampled angle. -/
def rotScale (cosA sinA : ℚ) : ℚ := min (1 / (|cosA| + |sinA|)) 1

/-- Side of the intermediate buffer of the rotation stage,
int(float64(targetWidth) * scale). -/
def rotScaledSize (cosA sinA : ℚ) : Nat :=
  (goTrunc ((targetWidth : ℚ) * rotScale cosA sinA)).toNat

/-- Inverse-mapped x coordinate of the rotation stage: translate to the
centre, rotate by the negated angle (cos(-a) = cos a, sin(-a) = -sin a) and
translate to the centre of the intermediate buffer. -/
def rotMapX (cosA sinA : ℚ) (x y : Int) : ℚ :=
  ((x : ℚ) - (targetWidth : ℚ) / 2) * cosA - ((y : ℚ) - (targetHeight : ℚ) / 2) * (-sinA) +
    (rotScaledSize cosA sinA : ℚ) / 2

/-- Inverse-mapped y coordinate of the rotation stage. -/
def rotMapY (cosA sinA : ℚ) (x y : Int) : ℚ :=
  ((x : ℚ) - (targetWidth : ℚ) / 2) * (-sinA) + ((y : ℚ) - (targetHeight : ℚ) / 2) * cosA +
    (rotScaledSize cosA sinA : ℚ) / 2

/-- One channel of the bilinear tap of the rotation stage. -/
def blendChan (a00 a10 a01 a11 : Nat) (fx fy : ℚ) : Nat :=
  (goTrunc ((a00 : ℚ) * (1 - fx) * (1 - fy) + (a10 : ℚ) * fx * (1 - fy) +
      (a01 : ℚ) * (1 - fx) * fy + (a11 : ℚ) * fx * fy)).toNat

/-- Bilinear sample of the rotation stage at fractional coordinate (rx, ry). -/
def bilinearSample (img : Img) (rx ry : ℚ) : Pixel :=
  let x0 : Int := goTrunc rx
  let y0 : Int := goTrunc ry
  let fx : ℚ := rx - (x0 : ℚ)
  let fy : ℚ := ry - (y0 : ℚ)
  let c00 := img.pix x0 y0
  let c01 := img.pix x0 (y0 + 1)
  let c10 := img.pix (x0 + 1) y0
  let c11 := img.pix (x0 + 1) (y0 + 1)
  ⟨blendChan c00.r c10.r c01.r c11.r fx fy,
   blendChan c00.g c10.g c01.g c11.g fx fy,
   blendChan c00.b c10.b c01.b c11.b fx fy,
   blendChan c00.a c10.a c01.a c11.a fx fy⟩

/-- applyRotation, with cosA and sinA standing for the float64 cosine and
sine of the sampled angle.  The result buffer has the bounds of the input
and stays at its zero initialisation wherever the loop does not write or the
inverse-mapped coordinate leaves the one pixel interior margin of the
intermediate buffer. -/
def applyRotation (bl : Scaler) (img : Img) (cosA sinA : ℚ) : Img :=
  let size := rotScaledSize cosA sinA
  let scaled : Img := ⟨size, size, fun x y =>
    if 0 ≤ x ∧ x < (size : Int) ∧ 0 ≤ y ∧ y < (size : Int) then bl img size size x y
    else Pixel.zero⟩
  ⟨img.width, img.height, fun x y =>
    if 0 ≤ x ∧ x < (targetWidth : Int) ∧ 0 ≤ y ∧ y < (targetHeight : Int) then
      let rx := rotMapX cosA sinA x y
      let ry := rotMapY cosA sinA x y
      if 1 ≤ rx ∧ 1 ≤ ry ∧ rx < (size : ℚ) - 1 ∧ ry < (size : ℚ) - 1 then
        bilinearSample scaled rx ry
      else Pixel.zero
    else Pixel.zero⟩

/-- draw.Over for RGBA destination and source (Go image/draw drawCopyOver):
16-bit per channel, a = (65535 - srcAlpha16) * 257,
dst = uint8((dst*a/65535 + src16) >> 8). -/
def overByte (s d sa : Nat) : Nat :=
  (d * ((65535 - sa * 257) * 257) / 65535 + s * 257) / 256

def overPixel (s d : Pixel) : Pixel :=
  ⟨overByte s.r d.r s.a, overByte s.g d.g s.a, overByte s.b d.b s.a, overByte s.a d.a s.a⟩

/-- Compositor: a fresh canvas with the frame bounds, the frame copied in
with draw.Src, then the art drawn with draw.Over into the rectangle at
(fX, fY) of side 750, clipped against the art bounds. -/
def composite (frame : Img) (art : Img) (fX fY : Int) : Img :=
  ⟨frame.width, frame.height, fun x y =>
    if 0 ≤ x ∧ x < (frame.width : Int) ∧ 0 ≤ y ∧ y < (frame.height : Int) then
      if fX ≤ x ∧ x < fX + (targetWidth : Int) ∧ x - fX < (art.width : Int) ∧
         fY ≤ y ∧ y < fY + (targetHeight : Int) ∧ y - fY < (art.height : Int) then
        overPixel (art.pix (x - fX) (y - fY)) (frame.pix x y)
      else frame.pix x y
    else Pixel.zero⟩

/-- X offset perturbation, int(rand.Float64()*17) - 8. -/
def offsetPerturbX (u : ℚ) : Int := goTrunc (u * 17) - 8

/-- Y offset perturbation, int(rand.Float64()*11) - 5. -/
def offsetPerturbY (u : ℚ) : Int := goTrunc (u * 11) - 5

/-- Index of the first random draw of the rotation stage within the random
stream of one Process call: the corner stage before it consumes four draws
when enabled. -/
def rotIndex (opts : Options) : Nat := if opts.roundedCorners then 4 else 0

/-- Index of the first random draw of the offset perturbation. -/
def offsetIndex (opts : Options) : Nat :=
  rotIndex opts + (if opts.randomRotation then 1 else 0)

/-- Effect chain of Process, lines 85 to 99 of jewelcase.go: the five effect
stages in their fixed order, each applied only when its option is set.  cosF
and sinF stand for math.Cos and math.Sin applied to the angle derived from
the drawn value. -/
def effectChain (bl : Scaler) (cosF sinF : ℚ → ℚ) (opts : Options) (rng : Nat → ℚ)
    (o1 : Img) : Img :=
  let o2 := if opts.colourCorrection then applyColourCorrection o1 else o1
  let o3 := if opts.edgeSoftening then applyEdgeSoftening o2 else o2
  let o4 := if opts.roundedCorners then applyRoundedCorners o3 (rng 0) (rng 1) (rng 2) (rng 3)
            else o3
  let o5 := if opts.reflection then applyReflection o4 else o4
  if opts.randomRotation then
    applyRotation bl o5 (cosF (rng (rotIndex opts))) (sinF (rng (rotIndex opts)))
  else o5

/-- Final X placement of the art inside the frame. -/
def finalX (opts : Options) (rng : Nat → ℚ) : Int :=
  frameOffsetX + (if opts.randomOffset then offsetPerturbX (rng (offsetIndex opts)) else 0)

/-- Final Y placement of the art inside the frame. -/
def finalY (opts : Options) (rng : Nat → ℚ) : Int :=
  frameOffsetY + (if opts.randomOffset then offsetPerturbY (rng (offsetIndex opts + 1)) else 0)

/-- Body of Process past the already-processed guard: geometry stage, effect
chain, compositor. -/
def processBody (frame : Img) (bl : Scaler) (cosF sinF : ℚ → ℚ) (albumArt : Img)
    (opts : Options) (rng : Nat → ℚ) : Img :=
  composite frame (effectChain bl cosF sinF opts rng (scaleAndCrop bl albumArt))
    (finalX opts rng) (finalY opts rng)

inductive JCError where
  | alreadyProcessed
  | unsupportedFormat (ext : String)
  | openFailed
  | decodeFailed
deriving DecidableEq, Repr

/-- Process from jewelcase.go: the already-processed guard, then the body. -/
def Process (frame : Img) (bl : Scaler) (cosF sinF : ℚ → ℚ) (albumArt : Img)
    (opts : Options) (rng : Nat → ℚ) : Except JCError Img :=
  if opts.force = false ∧ albumArt.width = frame.width ∧ albumArt.height = frame.height then
    .error .alreadyProcessed
  else
    .ok (processBody frame bl cosF sinF albumArt opts rng)

/-- filepath.Ext scans the path backwards for a dot, stopping at a path
separator; this keeps the characters after the last separator. -/
def afterLastSep (cs : List Char) : List Char :=
  cs.foldl (fun acc c => if c = '/' then [] else acc ++ [c]) []

/-- Suffix of the character list from its last dot, inclusive; empty when
there is no dot. -/
def lastDotSuffix (cs : List Char) : List Char :=
  cs.foldl (fun acc c => if c = '.' then ['.'] else if acc = [] then [] else acc ++ [c]) []

/-- strings.ToLower(filepath.Ext(path)), for ASCII paths. -/
def extOf (path : String) : String :=
  String.mk ((lastDotSuffix (afterLastSep path.data)).map Char.toLower)

def supportedExt (e : String) : Bool :=
  e = ".jpg" || e = ".jpeg" || e = ".png"

/-- Abstract storage and codec state: which paths can be opened, and the
image the codec decodes from each openable path (none for malformed bytes). -/
structure FS where
  present : String → Bool
  decodesTo : String → Option Img

/-- loadImage: os.Open first, then the extension switch, then the codec.
The two codecs are external collaborators and are merged into the decodesTo
oracle of the filesystem model. -/
def loadImage (fs : FS) (path : String) : Except JCError Img :=
  if fs.present path then
    let ext := extOf path
    if ext = ".jpg" || ext = ".jpeg" then
      match fs.decodesTo path with
      | some img => .ok img
      | none => .error .decodeFailed
    else if ext = ".png" then
      match fs.decodesTo path with
      | some img => .ok img
      | none => .error .decodeFailed
    else .error (.unsupportedFormat ext)
  else .error .openFailed

/-- saveImage: os.Create runs before the extension switch, so the output
file is created (or truncated) unconditionally; the returned boolean records
that a file now exists at the output path.  Encoding by the external codec
is modelled as succeeding. -/
def saveImage (outputPath : String) : Bool × Option JCError :=
  let ext := extOf outputPath
  (true,
    if ext = ".jpg" || ext = ".jpeg" || ext = ".png" then none
    else some (.unsupportedFormat ext))

/-- ProcessFile: load, process, save.  The boolean of the result records
whether a file was created at the output path during the call. -/
def ProcessFile (frame : Img) (bl : Scaler) (cosF sinF : ℚ → ℚ) (fs : FS)
    (inputPath outputPath : String) (opts : Options) (rng : Nat → ℚ) :
    Bool × Option JCError :=
  match loadImage fs inputPath with
  | .error e => (false, some e)
  | .ok img =>
    match Process frame bl cosF sinF img opts rng with
    | .error e => (false, some e)
    | .ok _ => saveImage outputPath

/-! Concrete instances used by the witnesses. -/

def blZero : Scaler := fun _ _ _ _ _ => Pixel.zero

def idQ : ℚ → ℚ := fun q => q

def rngZero : Nat → ℚ := fun _ => 0

def rngHalf : Nat → ℚ := fun _ => 1 / 2

def optsNone : Options := ⟨false, false, false, false, false, false, false⟩

def optsForce : Options := ⟨false, false, false, false, false, false, true⟩

def optsOffset : Options := ⟨false, false, false, true, false, false, false⟩

def testFrame : Img := ⟨884, 777, fun _ _ => ⟨10, 20, 30, 255⟩⟩

def testArt : Img := ⟨1000, 500, fun _ _ => ⟨128, 128, 128, 255⟩⟩

def testGrey : Img := ⟨2, 2, fun _ _ => ⟨128, 128, 128, 255⟩⟩

def art750 : Img := ⟨750, 750, fun _ _ => ⟨1, 2, 3, 255⟩⟩

def fsTest : FS :=
  ⟨fun p => p = "in.png", fun p => if p = "in.png" then some testArt else none⟩

def fsB : FS := ⟨fun p => p = "art.bmp", fun _ => none⟩

/-! Helper lemmas. -/

theorem effectChain_size (bl : Scaler) (cosF sinF : ℚ → ℚ) (opts : Options) (rng : Nat → ℚ)
    (o1 : Img) :
    (effectChain bl cosF sinF opts rng o1).width = o1.width ∧
      (effectChain bl cosF sinF opts rng o1).height = o1.height := by
  unfold effectChain
  rcases opts with ⟨cc, rc, es, ro, rr, re, fo⟩
  cases cc <;> cases es <;> cases rc <;> cases re <;> cases rr <;> exact ⟨rfl, rfl⟩

/-- C1: with force false, Process returns the AlreadyProcessed condition and
no image exactly when the input dimensions equal the frame dimensions; with
force true the guard is skipped and the normally composited body is
returned. -/
theorem process_already_processed_guard (frame : Img) (bl : Scaler) (cosF sinF : ℚ → ℚ)
    (albumArt : Img) (opts : Options) (rng : Nat → ℚ) :
    (opts.force = false →
      (Process frame bl cosF sinF albumArt opts rng = .error .alreadyProcessed ↔
        (albumArt.width = frame.width ∧ albumArt.height = frame.height))) ∧
    (opts.force = true →
      Process frame bl cosF sinF albumArt opts rng =
        .ok (processBody frame bl cosF sinF albumArt opts rng)) := by
  constructor
  · intro hf
    by_cases hdim : albumArt.width = frame.width ∧ albumArt.height = frame.height
    · simp [Process, hf, hdim]
    · simp [Process, hf, hdim]
  · intro hf
    simp [Process, hf]

/-- Witness for C1 at concrete inputs, on both sides of the force flag. -/
theorem process_already_processed_guard_witness :
    (Process testFrame blZero idQ idQ testArt optsNone rngZero = .error .alreadyProcessed ↔
      (testArt.width = testFrame.width ∧ testArt.height = testFrame.height)) ∧
    Process testFrame blZero idQ idQ testFrame optsForce rngZero =
      .ok (processBody testFrame blZero idQ idQ testFrame optsForce rngZero) :=
  ⟨(process_already_processed_guard testFrame blZero idQ idQ testArt optsNone rngZero).1 rfl,
   (process_already_processed_guard testFrame blZero idQ idQ testFrame optsForce rngZero).2 rfl⟩

/-- C2: the geometry stage always outputs a 750 by 750 buffer, every effect
stage preserves the dimensions of its input exactly, and hence the buffer
entering the compositor is 750 by 750 for every option set. -/
theorem pipeline_dimension_invariants (bl : Scaler) (cosF sinF : ℚ → ℚ) (opts : Options)
    (rng : Nat → ℚ) (img : Img) (hw : 0 < img.width) (hh : 0 < img.height)
    (buf : Img) (u1 u2 u3 u4 cosA sinA : ℚ) :
    ((scaleAndCrop bl img).width = 750 ∧ (scaleAndCrop bl img).height = 750) ∧
    ((applyColourCorrection buf).width = buf.width ∧
      (applyColourCorrection buf).height = buf.height) ∧
    ((applyEdgeSoftening buf).width = buf.width ∧
      (applyEdgeSoftening buf).height = buf.height) ∧
    ((applyRoundedCorners buf u1 u2 u3 u4).width = buf.width ∧
      (applyRoundedCorners buf u1 u2 u3 u4).height = buf.height) ∧
    ((applyReflection buf).width = buf.width ∧ (applyReflection buf).height = buf.height) ∧
    ((applyRotation bl buf cosA sinA).width = buf.width ∧
      (applyRotation bl buf cosA sinA).height = buf.height) ∧
    ((effectChain bl cosF sinF opts rng (scaleAndCrop bl img)).width = 750 ∧
      (effectChain bl cosF sinF opts rng (scaleAndCrop bl img)).height = 750) := by
  refine ⟨⟨rfl, rfl⟩, ⟨rfl, rfl⟩, ⟨rfl, rfl⟩, ⟨rfl, rfl⟩, ⟨rfl, rfl⟩, ⟨rfl, rfl⟩, ?_⟩
  exact effectChain_size bl cosF sinF opts rng (scaleAndCrop bl img)

/-- Witness for C2 at a 1000 by 500 input. -/
theorem pipeline_dimension_invariants_witness :
    ((scaleAndCrop blZero testArt).width = 750 ∧ (scaleAndCrop blZero testArt).height = 750) ∧
    ((applyColourCorrection testGrey).width = testGrey.width ∧
      (applyColourCorrection testGrey).height = testGrey.height) ∧
    ((applyEdgeSoftening testGrey).width = testGrey.width ∧
      (applyEdgeSoftening testGrey).height = testGrey.height) ∧
    ((applyRoundedCorners testGrey 0 0 0 0).width = testGrey.width ∧
      (applyRoundedCorners testGrey 0 0 0 0).height = testGrey.height) ∧
    ((applyReflection testGrey).width = testGrey.width ∧
      (applyReflection testGrey).height = testGrey.height) ∧
    ((applyRotation blZero testGrey 1 0).width = testGrey.width ∧
      (applyRotation blZero testGrey 1 0).height = testGrey.height) ∧
    ((effectChain blZero idQ idQ optsNone rngZero (scaleAndCrop blZero testArt)).width = 750 ∧
      (effectChain blZero idQ idQ optsNone rngZero (scaleAndCrop blZero testArt)).height = 750) :=
  pipeline_dimension_invariants blZero idQ idQ optsNone rngZero testArt
    (by decide) (by decide) testGrey 0 0 0 0 1 0

/-- C10: when the corner, rotation and offset stages are disabled, Process
never consults the random stream, so any two invocations on the same input
and options agree. -/
theorem process_deterministic_without_random_stages (frame : Img) (bl : Scaler)
    (cosF sinF : ℚ → ℚ) (albumArt : Img) (opts : Options) (rng1 rng2 : Nat → ℚ)
    (hc : opts.roundedCorners = false) (hr : opts.randomRotation = false)
    (ho : opts.randomOffset = false) :
    Process frame bl cosF sinF albumArt opts rng1 =
      Process frame bl cosF sinF albumArt opts rng2 := by
  unfold Process processBody effectChain finalX finalY
  simp [hc, hr, ho]

/-- Witness for C10: two different random streams, identical results. -/
theorem process_deterministic_without_random_stages_witness :
    Process testFrame blZero idQ idQ testArt optsNone rngZero =
      Process testFrame blZero idQ idQ testArt optsNone rngHalf :=
  process_deterministic_without_random_stages testFrame blZero idQ idQ testArt optsNone
    rngZero rngHalf rfl rfl rfl

/-- C5 counterexample: at the draw 31/32 (a value in [0,1)) the X
perturbation int(u*17) - 8 equals +8, which is outside the half open
interval [-8, 8) stated by the claim; the Y perturbation likewise reaches
+5.  The in-code comment says -8 to +8 inclusive. -/
theorem offset_perturbation_upper_endpoint :
    (0 : ℚ) ≤ 31 / 32 ∧ (31 : ℚ) / 32 < 1 ∧
      offsetPerturbX (31 / 32) = 8 ∧ ¬ offsetPerturbX (31 / 32) < 8 ∧
      offsetPerturbY (31 / 32) = 5 ∧ ¬ offsetPerturbY (31 / 32) < 5 := by
  norm_num [offsetPerturbX, offsetPerturbY, goTrunc]

/-- C5 amended: for a draw u in [0,1) the X perturbation lies in the closed
interval [-8, +8] and the Y perturbation in [-5, +5], each computed as
floor(u*range) - half range from its own draw of the stream, and these are
exactly the perturbations Process adds to the fixed offset (98, 13) when the
randomised offset is enabled. -/
theorem offset_perturbation_range (u v : ℚ) (hu0 : 0 ≤ u) (hu1 : u < 1)
    (hv0 : 0 ≤ v) (hv1 : v < 1) (opts : Options) (rng : Nat → ℚ) :
    (-8 ≤ offsetPerturbX u ∧ offsetPerturbX u ≤ 8) ∧
    (-5 ≤ offsetPerturbY v ∧ offsetPerturbY v ≤ 5) ∧
    (opts.randomOffset = true →
      finalX opts rng = 98 + offsetPerturbX (rng (offsetIndex opts)) ∧
      finalY opts rng = 13 + offsetPerturbY (rng (offsetIndex opts + 1))) := by
  have hx : goTrunc (u * 17) = ⌊u * 17⌋ := by
    unfold goTrunc
    rw [if_pos (by positivity)]
  have hy : goTrunc (v * 11) = ⌊v * 11⌋ := by
    unfold goTrunc
    rw [if_pos (by positivity)]
  have hx0 : 0 ≤ ⌊u * 17⌋ := Int.floor_nonneg.mpr (by positivity)
  have hx1 : ⌊u * 17⌋ < 17 := Int.floor_lt.mpr (by push_cast; nlinarith)
  have hy0 : 0 ≤ ⌊v * 11⌋ := Int.floor_nonneg.mpr (by positivity)
  have hy1 : ⌊v * 11⌋ < 11 := Int.floor_lt.mpr (by push_cast; nlinarith)
  refine ⟨⟨?_, ?_⟩, ⟨?_, ?_⟩, ?_⟩
  · unfold offsetPerturbX; rw [hx]; omega
  · unfold offsetPerturbX; rw [hx]; omega
  · unfold offsetPerturbY; rw [hy]; omega
  · unfold offsetPerturbY; rw [hy]; omega
  · intro h
    unfold finalX finalY frameOffsetX frameOffsetY
    rw [h]
    simp

/-- Witness for the amended C5 at the draw 0 and an option set with the
randomised offset enabled. -/
theorem offset_perturbation_range_witness :
    ((-8 ≤ offsetPerturbX 0 ∧ offsetPerturbX 0 ≤ 8) ∧
     (-5 ≤ offsetPerturbY 0 ∧ offsetPerturbY 0 ≤ 5) ∧
     (optsOffset.randomOffset = true →
       finalX optsOffset rngZero = 98 + offsetPerturbX (rngZero (offsetIndex optsOffset)) ∧
       finalY optsOffset rngZero =
         13 + offsetPerturbY (rngZero (offsetIndex optsOffset + 1)))) :=
  offset_perturbation_range 0 0 (le_refl 0) zero_lt_one (le_refl 0) zero_lt_one
    optsOffset rngZero

/-- Every clamped byte is at most 255. -/
theorem q8_le_255 (q : ℚ) : q8 q ≤ 255 := by
  unfold q8 goTrunc
  rw [if_pos (le_max_left 0 _)]
  have h1 : max 0 (min 255 q) ≤ 255 := max_le (by norm_num) (min_le_left _ _)
  have h2 : ⌊max 0 (min 255 q)⌋ ≤ 255 := by
    calc ⌊max 0 (min 255 q)⌋ ≤ ⌊(255 : ℚ)⌋ := Int.floor_le_floor h1
    _ = 255 := by norm_num
  exact Int.toNat_le.mpr h2

/-- The colour correction loop body fixes a mid grey pixel apart from the
blue boost: 128 is a fixed point of the saturation and contrast blends, and
the blue channel becomes int(min(255, 128*1.02)) = int(130.56) = 130. -/
theorem ccPixel_grey (aVal : Nat) : ccPixel ⟨128, 128, 128, aVal⟩ = ⟨128, 128, 130, aVal⟩ := by
  simp only [ccPixel]
  norm_num [q8, goTrunc]
  constructor <;> rfl

/-- In bounds, colour correction is the per-pixel map ccPixel. -/
theorem applyColourCorrection_pix (img : Img) (x y : Int) (hin : img.inB x y) :
    (applyColourCorrection img).pix x y = ccPixel (img.pix x y) := by
  simp [applyColourCorrection, perPixel, hin]

/-- C3: colour corrected channels always stay within [0, 255] (they are
clamped before quantisation), the alpha channel passes through unchanged,
and a uniform mid grey pixel R=G=B=128 keeps R and G at 128 while B rises to
exactly 130. -/
theorem colour_correction_bounds_grey (img : Img) (x y : Int) (aVal : Nat)
    (hin : img.inB x y) :
    (((applyColourCorrection img).pix x y).r ≤ 255 ∧
     ((applyColourCorrection img).pix x y).g ≤ 255 ∧
     ((applyColourCorrection img).pix x y).b ≤ 255) ∧
    ((applyColourCorrection img).pix x y).a = (img.pix x y).a ∧
    (img.pix x y = ⟨128, 128, 128, aVal⟩ →
      (applyColourCorrection img).pix x y = ⟨128, 128, 130, aVal⟩) := by
  rw [applyColourCorrection_pix img x y hin]
  refine ⟨⟨q8_le_255 _, q8_le_255 _, q8_le_255 _⟩, rfl, ?_⟩
  intro h
  rw [h]
  exact ccPixel_grey aVal

/-- Witness for C3 on a uniform mid grey buffer. -/
theorem colour_correction_bounds_grey_witness :
    (((applyColourCorrection testGrey).pix 0 0).r ≤ 255 ∧
     ((applyColourCorrection testGrey).pix 0 0).g ≤ 255 ∧
     ((applyColourCorrection testGrey).pix 0 0).b ≤ 255) ∧
    ((applyColourCorrection testGrey).pix 0 0).a = (testGrey.pix 0 0).a ∧
    (testGrey.pix 0 0 = ⟨128, 128, 128, 255⟩ →
      (applyColourCorrection testGrey).pix 0 0 = ⟨128, 128, 130, 255⟩) :=
  colour_correction_bounds_grey testGrey 0 0 255 (by decide)

/-- Inside the bounds the four edge distances are nonnegative. -/
theorem edgeMinDist_nonneg (img : Img) (x y : Int) (hin : img.inB x y) :
    0 ≤ edgeMinDist img x y := by
  obtain ⟨hx0, hx1, hy0, hy1⟩ := hin
  unfold edgeMinDist
  have h1 : (0 : ℚ) ≤ (x : ℚ) := by exact_mod_cast hx0
  have h2 : (0 : ℚ) ≤ (img.width : ℚ) - (x : ℚ) - 1 := by
    have hx1q : (x : ℚ) + 1 ≤ (img.width : ℚ) := by exact_mod_cast Int.add_one_le_iff.mpr hx1
    linarith
  have h3 : (0 : ℚ) ≤ (y : ℚ) := by exact_mod_cast hy0
  have h4 : (0 : ℚ) ≤ (img.height : ℚ) - (y : ℚ) - 1 := by
    have hy1q : (y : ℚ) + 1 ≤ (img.height : ℚ) := by exact_mod_cast Int.add_one_le_iff.mpr hy1
    linarith
  exact le_min (le_min h1 h2) (le_min h3 h4)

/-- C7: the outermost ring of pixels (edge distance 0) gets alpha exactly 0,
every pixel at edge distance below 2 gets the linearly scaled alpha byte
int(255 * minDist/2), and every pixel at edge distance at least 2 is byte
identical to the input. -/
theorem edge_softening_alpha_profile (img : Img) (x y : Int) (hin : img.inB x y) :
    (edgeMinDist img x y = 0 → ((applyEdgeSoftening img).pix x y).a = 0) ∧
    (edgeMinDist img x y < 2 →
      ((applyEdgeSoftening img).pix x y).a =
        (goTrunc (255 * (edgeMinDist img x y / 2))).toNat) ∧
    (2 ≤ edgeMinDist img x y → (applyEdgeSoftening img).pix x y = img.pix x y) := by
  have hpix : (applyEdgeSoftening img).pix x y =
      (if edgeMinDist img x y < 2 then
        (if edgeMinDist img x y / 2 < 1 then
          nrgbaStore (img.pix x y).r (img.pix x y).g (img.pix x y).b
            (goTrunc (255 * (edgeMinDist img x y / 2))).toNat
        else img.pix x y)
      else img.pix x y) := by
    simp only [applyEdgeSoftening, perPixel]
    rw [if_pos hin]
  have hmd0 := edgeMinDist_nonneg img x y hin
  refine ⟨?_, ?_, ?_⟩
  · intro h0
    rw [hpix, if_pos (by rw [h0]; norm_num), if_pos (by rw [h0]; norm_num), h0]
    norm_num [nrgbaStore, goTrunc]
  · intro h2
    have ha : edgeMinDist img x y / 2 < 1 := by linarith
    rw [hpix, if_pos h2, if_pos ha]
    have hfl : goTrunc (255 * (edgeMinDist img x y / 2)) =
        ⌊255 * (edgeMinDist img x y / 2)⌋ := by
      unfold goTrunc
      rw [if_pos (by positivity)]
    have hna : (goTrunc (255 * (edgeMinDist img x y / 2))).toNat ≤ 254 := by
      rw [hfl]
      have : ⌊255 * (edgeMinDist img x y / 2)⌋ < 255 :=
        Int.floor_lt.mpr (by push_cast; nlinarith)
      omega
    unfold nrgbaStore
    show (goTrunc (255 * (edgeMinDist img x y / 2))).toNat * 257 / 256 =
      (goTrunc (255 * (edgeMinDist img x y / 2))).toNat
    omega
  · intro h2
    rw [hpix, if_neg (not_lt.mpr h2)]

/-- The corner pixel of the 2 by 2 grey test buffer has edge distance 0. -/
theorem testGrey_edgeMinDist : edgeMinDist testGrey 0 0 = 0 := by
  norm_num [edgeMinDist, testGrey]

/-- Witness for C7: the corner pixel of a concrete buffer ends fully
transparent. -/
theorem edge_softening_alpha_profile_witness :
    ((applyEdgeSoftening testGrey).pix 0 0).a = 0 :=
  (edge_softening_alpha_profile testGrey 0 0 (by decide)).1 testGrey_edgeMinDist

/-- At the origin every radius of at least 6 rounds the pixel away: the
squared corner distance 2*r*r exceeds r*r. -/
theorem shouldRound_origin (radius : ℚ) (hr : 6 ≤ radius) : shouldRound 0 0 radius = true := by
  unfold shouldRound
  rw [if_neg (by push_neg; constructor <;> linarith), decide_eq_true_eq]
  right
  nlinarith [hr]

/-- A pixel at distance not below the radius is never rounded (the early
guard of shouldRound). -/
theorem shouldRound_far (dist1 dist2 radius : ℚ) (h : radius ≤ dist1) :
    shouldRound dist1 dist2 radius = false := by
  unfold shouldRound
  rw [if_pos (Or.inl h)]

/-- C8: for corner radii drawn from [6, 12) the corner pixel (0,0) is always
set fully transparent, and the centre pixel of the 750 by 750 pipeline
buffer is never altered. -/
theorem rounded_corners_corner_centre (img : Img) (u1 u2 u3 u4 : ℚ)
    (h10 : 0 ≤ u1) (h11 : u1 < 1) (h20 : 0 ≤ u2) (h21 : u2 < 1)
    (h30 : 0 ≤ u3) (h31 : u3 < 1) (h40 : 0 ≤ u4) (h41 : u4 < 1)
    (hw : 0 < img.width) (hh : 0 < img.height) :
    (applyRoundedCorners img u1 u2 u3 u4).pix 0 0 = Pixel.zero ∧
    (img.width = 750 → img.height = 750 →
      (applyRoundedCorners img u1 u2 u3 u4).pix 375 375 = img.pix 375 375) := by
  constructor
  · have hin0 : img.inB 0 0 :=
      ⟨le_refl 0, by exact_mod_cast hw, le_refl 0, by exact_mod_cast hh⟩
    have hsr : shouldRound 0 0 (6 + u1 * 6) = true :=
      shouldRound_origin (6 + u1 * 6) (by linarith)
    simp [applyRoundedCorners, perPixel, hin0, hsr]
  · intro hw750 hh750
    have hin : img.inB 375 375 :=
      ⟨by norm_num, by rw [hw750]; norm_num, by norm_num, by rw [hh750]; norm_num⟩
    have etl : shouldRound (375 : ℚ) (375 : ℚ) (6 + u1 * 6) = false :=
      shouldRound_far _ _ _ (by linarith)
    have etr : shouldRound (374 : ℚ) (375 : ℚ) (6 + u2 * 6) = false :=
      shouldRound_far _ _ _ (by linarith)
    have ebl : shouldRound (375 : ℚ) (374 : ℚ) (6 + u3 * 6) = false :=
      shouldRound_far _ _ _ (by linarith)
    have ebr : shouldRound (374 : ℚ) (374 : ℚ) (6 + u4 * 6) = false :=
      shouldRound_far _ _ _ (by linarith)
    norm_num [applyRoundedCorners, perPixel, hin, hw750, hh750, etl, etr, ebl, ebr]

/-- Witness for C8 on a concrete 750 by 750 buffer with all four draws 0. -/
theorem rounded_corners_corner_centre_witness :
    (applyRoundedCorners art750 0 0 0 0).pix 0 0 = Pixel.zero ∧
    (art750.width = 750 → art750.height = 750 →
      (applyRoundedCorners art750 0 0 0 0).pix 375 375 = art750.pix 375 375) :=
  rounded_corners_corner_centre art750 0 0 0 0
    (le_refl 0) zero_lt_one (le_refl 0) zero_lt_one
    (le_refl 0) zero_lt_one (le_refl 0) zero_lt_one (by decide) (by decide)

/-- Truncation of an integral rational is the integer itself. -/
theorem goTrunc_intCast (n : Int) : goTrunc (n : ℚ) = n := by
  unfold goTrunc
  split
  · exact Int.floor_intCast n
  · rw [show -((n : ℚ)) = ((-n : Int) : ℚ) by push_cast; ring, Int.floor_intCast, neg_neg]

/-- With the angle 0 the downscale factor is 1, so the intermediate buffer
side is the full 750. -/
theorem rotScaledSize_one_zero : rotScaledSize 1 0 = 750 := by
  norm_num [rotScaledSize, rotScale, targetWidth, goTrunc]
  rfl

/-- With the angle 0 the inverse map is the identity on x. -/
theorem rotMapX_one_zero (x y : Int) : rotMapX 1 0 x y = (x : ℚ) := by
  norm_num [rotMapX, rotScaledSize_one_zero, targetWidth, targetHeight]

/-- With the angle 0 the inverse map is the identity on y. -/
theorem rotMapY_one_zero (x y : Int) : rotMapY 1 0 x y = (y : ℚ) := by
  norm_num [rotMapY, rotScaledSize_one_zero, targetWidth, targetHeight]

/-- A bilinear tap with zero fractional parts returns its first corner. -/
theorem blendChan_zero (a00 a10 a01 a11 : Nat) : blendChan a00 a10 a01 a11 0 0 = a00 := by
  norm_num [blendChan, goTrunc]

/-- Bilinear sampling at an exactly integral coordinate returns the stored
pixel there. -/
theorem bilinearSample_intCast (img : Img) (x y : Int) :
    bilinearSample img (x : ℚ) (y : ℚ) = img.pix x y := by
  unfold bilinearSample
  rw [goTrunc_intCast, goTrunc_intCast]
  simp only [sub_self]
  rw [blendChan_zero, blendChan_zero, blendChan_zero, blendChan_zero]

/-- C4: with the sampled angle 0 (cosine 1, sine 0) every destination pixel
inside the sampling margin equals the pure bilinear scale-then-centre of the
input (scale 1, centring shift 0, the identity coordinate map); and for every
angle, a destination pixel whose inverse-mapped coordinate leaves the margin
[1, size-2] of the intermediate buffer keeps its zero-initialised, fully
transparent value. -/
theorem rotation_zero_angle_margin (bl : Scaler) (img : Img) (cosA sinA : ℚ) (x y : Int)
    (hx0 : 0 ≤ x) (hx : x < 750) (hy0 : 0 ≤ y) (hy : y < 750) :
    (cosA = 1 → sinA = 0 → 1 ≤ x → x ≤ 748 → 1 ≤ y → y ≤ 748 →
      (applyRotation bl img cosA sinA).pix x y = bl img 750 750 x y) ∧
    (¬(1 ≤ rotMapX cosA sinA x y ∧ 1 ≤ rotMapY cosA sinA x y ∧
        rotMapX cosA sinA x y < (rotScaledSize cosA sinA : ℚ) - 1 ∧
        rotMapY cosA sinA x y < (rotScaledSize cosA sinA : ℚ) - 1) →
      (applyRotation bl img cosA sinA).pix x y = Pixel.zero) := by
  have hb : 0 ≤ x ∧ x < ((targetWidth : Nat) : Int) ∧ 0 ≤ y ∧ y < ((targetHeight : Nat) : Int) := by
    refine ⟨hx0, ?_, hy0, ?_⟩ <;> norm_num [targetWidth, targetHeight] <;> omega
  have hpix : (applyRotation bl img cosA sinA).pix x y =
      (if 1 ≤ rotMapX cosA sinA x y ∧ 1 ≤ rotMapY cosA sinA x y ∧
          rotMapX cosA sinA x y < (rotScaledSize cosA sinA : ℚ) - 1 ∧
          rotMapY cosA sinA x y < (rotScaledSize cosA sinA : ℚ) - 1 then
        bilinearSample
          ⟨rotScaledSize cosA sinA, rotScaledSize cosA sinA, fun a b =>
            if 0 ≤ a ∧ a < (rotScaledSize cosA sinA : Int) ∧ 0 ≤ b ∧
                b < (rotScaledSize cosA sinA : Int) then
              bl img (rotScaledSize cosA sinA) (rotScaledSize cosA sinA) a b
            else Pixel.zero⟩
          (rotMapX cosA sinA x y) (rotMapY cosA sinA x y)
      else Pixel.zero) := by
    simp only [applyRotation]
    rw [if_pos hb]
  constructor
  · intro hc hs h1x h2x h1y h2y
    subst hc
    subst hs
    have hm : 1 ≤ rotMapX 1 0 x y ∧ 1 ≤ rotMapY 1 0 x y ∧
        rotMapX 1 0 x y < (rotScaledSize 1 0 : ℚ) - 1 ∧
        rotMapY 1 0 x y < (rotScaledSize 1 0 : ℚ) - 1 := by
      rw [rotMapX_one_zero, rotMapY_one_zero, rotScaledSize_one_zero]
      refine ⟨?_, ?_, ?_, ?_⟩
      · exact_mod_cast h1x
      · exact_mod_cast h1y
      · have : (x : ℚ) ≤ 748 := by exact_mod_cast h2x
        push_cast
        linarith
      · have : (y : ℚ) ≤ 748 := by exact_mod_cast h2y
        push_cast
        linarith
    rw [hpix, if_pos hm, rotMapX_one_zero, rotMapY_one_zero, bilinearSample_intCast]
    simp only [rotScaledSize_one_zero]
    rw [if_pos]
    refine ⟨hx0, ?_, hy0, ?_⟩
    · exact_mod_cast hx
    · exact_mod_cast hy
  · intro hmargin
    rw [hpix, if_neg hmargin]

/-- The inverse-mapped coordinate of the destination origin lies outside the
sampling margin even at angle 0. -/
theorem rotMap_origin_outside_margin :
    ¬(1 ≤ rotMapX 1 0 0 0 ∧ 1 ≤ rotMapY 1 0 0 0 ∧
      rotMapX 1 0 0 0 < (rotScaledSize 1 0 : ℚ) - 1 ∧
      rotMapY 1 0 0 0 < (rotScaledSize 1 0 : ℚ) - 1) := by
  intro h
  have h1 := h.1
  rw [rotMapX_one_zero] at h1
  norm_num at h1

/-- Witness for C4: at angle 0 an interior pixel equals the scaled input
sample and the border pixel (0,0), whose mapped coordinate is outside the
margin, stays transparent. -/
theorem rotation_zero_angle_margin_witness :
    (applyRotation blZero art750 1 0).pix 374 374 = blZero art750 750 750 374 374 ∧
    (applyRotation blZero art750 1 0).pix 0 0 = Pixel.zero :=
  ⟨(rotation_zero_angle_margin blZero art750 1 0 374 374 (by decide) (by decide) (by decide)
      (by decide)).1 rfl rfl (by decide) (by decide) (by decide) (by decide),
   (rotation_zero_angle_margin blZero art750 1 0 0 0 (by decide) (by decide) (by decide)
      (by decide)).2 rotMap_origin_outside_margin⟩

/-- The geometry stage always emits a 750 wide buffer. -/
theorem scaleAndCrop_width (bl : Scaler) (img : Img) : (scaleAndCrop bl img).width = 750 := rfl

/-- The geometry stage always emits a 750 tall buffer. -/
theorem scaleAndCrop_height (bl : Scaler) (img : Img) : (scaleAndCrop bl img).height = 750 := rfl

/-- C6: whenever Process succeeds it returns the composited body; that canvas
has exactly the frame bounds 884 by 777, every pixel outside the 750 by 750
placement rectangle equals the frame pixel copied as the opaque base layer,
and every pixel inside it is the source-over blend of the processed art over
the frame pixel. -/
theorem compositor_frame_base (frame : Img) (bl : Scaler) (cosF sinF : ℚ → ℚ)
    (albumArt : Img) (opts : Options) (rng : Nat → ℚ)
    (hfw : frame.width = 884) (hfh : frame.height = 777)
    (hsucc : opts.force = true ∨
      ¬(albumArt.width = frame.width ∧ albumArt.height = frame.height)) :
    Process frame bl cosF sinF albumArt opts rng =
      .ok (processBody frame bl cosF sinF albumArt opts rng) ∧
    (processBody frame bl cosF sinF albumArt opts rng).width = 884 ∧
    (processBody frame bl cosF sinF albumArt opts rng).height = 777 ∧
    (∀ x y : Int, 0 ≤ x → x < 884 → 0 ≤ y → y < 777 →
      (x < finalX opts rng ∨ finalX opts rng + 750 ≤ x ∨
        y < finalY opts rng ∨ finalY opts rng + 750 ≤ y) →
      (processBody frame bl cosF sinF albumArt opts rng).pix x y = frame.pix x y) ∧
    (∀ x y : Int, 0 ≤ x → x < 884 → 0 ≤ y → y < 777 →
      finalX opts rng ≤ x → x < finalX opts rng + 750 →
      finalY opts rng ≤ y → y < finalY opts rng + 750 →
      (processBody frame bl cosF sinF albumArt opts rng).pix x y =
        overPixel
          ((effectChain bl cosF sinF opts rng (scaleAndCrop bl albumArt)).pix
            (x - finalX opts rng) (y - finalY opts rng))
          (frame.pix x y)) := by
  have hok : Process frame bl cosF sinF albumArt opts rng =
      .ok (processBody frame bl cosF sinF albumArt opts rng) := by
    unfold Process
    rcases hsucc with h | h
    · rw [if_neg]
      intro hcon
      rw [h] at hcon
      exact absurd hcon.1 (by decide)
    · rw [if_neg]
      intro hcon
      exact h hcon.2
  have hart := effectChain_size bl cosF sinF opts rng (scaleAndCrop bl albumArt)
  rw [scaleAndCrop_width] at hart
  rw [scaleAndCrop_height] at hart
  refine ⟨hok, ?_, ?_, ?_, ?_⟩
  · show frame.width = 884
    exact hfw
  · show frame.height = 777
    exact hfh
  · intro x y hx0 hx1 hy0 hy1 hout
    show (composite frame (effectChain bl cosF sinF opts rng (scaleAndCrop bl albumArt))
      (finalX opts rng) (finalY opts rng)).pix x y = frame.pix x y
    simp only [composite]
    rw [if_pos ⟨hx0, by rw [hfw]; exact_mod_cast hx1, hy0, by rw [hfh]; exact_mod_cast hy1⟩]
    rw [if_neg]
    intro hcon
    obtain ⟨c1, c2, c3, c4, c5, c6⟩ := hcon
    have ht : ((targetWidth : Nat) : Int) = 750 := by norm_num [targetWidth]
    have ht2 : ((targetHeight : Nat) : Int) = 750 := by norm_num [targetHeight]
    rw [ht] at c2
    rw [ht2] at c5
    rcases hout with h | h | h | h <;> omega
  · intro x y hx0 hx1 hy0 hy1 hfx0 hfx1 hfy0 hfy1
    show (composite frame (effectChain bl cosF sinF opts rng (scaleAndCrop bl albumArt))
      (finalX opts rng) (finalY opts rng)).pix x y =
      overPixel
        ((effectChain bl cosF sinF opts rng (scaleAndCrop bl albumArt)).pix
          (x - finalX opts rng) (y - finalY opts rng)) (frame.pix x y)
    simp only [composite]
    rw [if_pos ⟨hx0, by rw [hfw]; exact_mod_cast hx1, hy0, by rw [hfh]; exact_mod_cast hy1⟩]
    rw [if_pos]
    refine ⟨hfx0, ?_, ?_, hfy0, ?_, ?_⟩
    · norm_num [targetWidth]
      omega
    · rw [hart.1]
      omega
    · norm_num [targetHeight]
      omega
    · rw [hart.2]
      omega

/-- Witness for C6 at concrete inputs: Process succeeds and the top left
canvas pixel, outside the placement rectangle (which starts at x=98), equals
the frame pixel. -/
theorem compositor_frame_base_witness :
    Process testFrame blZero idQ idQ testArt optsNone rngZero =
      .ok (processBody testFrame blZero idQ idQ testArt optsNone rngZero) ∧
    (processBody testFrame blZero idQ idQ testArt optsNone rngZero).pix 0 0 =
      testFrame.pix 0 0 :=
  ⟨(compositor_frame_base testFrame blZero idQ idQ testArt optsNone rngZero rfl rfl
      (Or.inr (by decide))).1,
   (compositor_frame_base testFrame blZero idQ idQ testArt optsNone rngZero rfl rfl
      (Or.inr (by decide))).2.2.2.1 0 0 (by decide) (by decide) (by decide) (by decide)
      (Or.inl (by decide))⟩

/-- The decidable form of shouldRound agrees with the square-root form of
the source for all inputs: for a sum of squares s, sqrt(s) - r > 0 holds
exactly when r < 0 or s > r*r. -/
theorem shouldRound_iff_sqrt (dist1 dist2 radius : ℚ) :
    shouldRound dist1 dist2 radius = true ↔
      ¬(dist1 ≥ radius ∨ dist2 ≥ radius) ∧
        (0 : ℝ) <
          Real.sqrt (((radius : ℝ) - (dist1 : ℝ)) * ((radius : ℝ) - (dist1 : ℝ)) +
              ((radius : ℝ) - (dist2 : ℝ)) * ((radius : ℝ) - (dist2 : ℝ))) -
            (radius : ℝ) := by
  unfold shouldRound
  by_cases hg : dist1 ≥ radius ∨ dist2 ≥ radius
  · simp [hg]
  · rw [if_neg hg, decide_eq_true_eq]
    have hs : (0 : ℝ) ≤ ((radius : ℝ) - (dist1 : ℝ)) * ((radius : ℝ) - (dist1 : ℝ)) +
        ((radius : ℝ) - (dist2 : ℝ)) * ((radius : ℝ) - (dist2 : ℝ)) :=
      add_nonneg (mul_self_nonneg _) (mul_self_nonneg _)
    constructor
    · intro h
      refine ⟨hg, ?_⟩
      rw [sub_pos]
      rcases h with h | h
      · calc ((radius : ℝ)) < 0 := by exact_mod_cast h
        _ ≤ Real.sqrt _ := Real.sqrt_nonneg _
      · rcases le_or_lt 0 (radius : ℝ) with hr | hr
        · rw [show Real.sqrt _ = Real.sqrt (((radius:ℝ) - dist1) * ((radius:ℝ) - dist1) +
              ((radius:ℝ) - dist2) * ((radius:ℝ) - dist2)) from rfl]
          rw [Real.lt_sqrt hr]
          have hq : ((radius : ℝ) - dist1) * ((radius : ℝ) - dist1) +
              ((radius : ℝ) - dist2) * ((radius : ℝ) - dist2) > (radius : ℝ) * (radius : ℝ) := by
            exact_mod_cast h
          nlinarith [hq]
        · calc ((radius : ℝ)) < 0 := hr
          _ ≤ Real.sqrt _ := Real.sqrt_nonneg _
    · rintro ⟨-, h⟩
      rw [sub_pos] at h
      rcases lt_or_le radius 0 with hr | hr
      · exact Or.inl hr
      · right
        have hrr : (0 : ℝ) ≤ (radius : ℝ) := by exact_mod_cast hr
        rw [Real.lt_sqrt hrr] at h
        have : (radius : ℝ) * (radius : ℝ) <
            ((radius : ℝ) - dist1) * ((radius : ℝ) - dist1) +
              ((radius : ℝ) - dist2) * ((radius : ℝ) - dist2) := by nlinarith [h]
        exact_mod_cast this

/-- C9 counterexample: with a present, decodable PNG input and the output
path out.bmp, ProcessFile reports the unsupported output format error, yet a
file has been created at the output path, because os.Create in saveImage
runs before the extension check; this refutes the claim that nothing is
written. -/
theorem processfile_creates_empty_output :
    ProcessFile testFrame blZero idQ idQ fsTest "in.png" "out.bmp" optsNone rngZero =
      (true, some (.unsupportedFormat ".bmp")) := by
  rfl

/-- C9 amended: an unsupported input extension (on an openable file) fails
before any pixel work with nothing created, but an unsupported output
extension fails only after os.Create has already created an empty file at
the output path. -/
theorem processfile_unsupported_extension (frame : Img) (bl : Scaler) (cosF sinF : ℚ → ℚ)
    (fs : FS) (inputPath outputPath : String) (opts : Options) (rng : Nat → ℚ)
    (img res : Img) :
    (fs.present inputPath = true → supportedExt (extOf inputPath) = false →
      ProcessFile frame bl cosF sinF fs inputPath outputPath opts rng =
        (false, some (.unsupportedFormat (extOf inputPath)))) ∧
    (loadImage fs inputPath = .ok img →
      Process frame bl cosF sinF img opts rng = .ok res →
      supportedExt (extOf outputPath) = false →
      ProcessFile frame bl cosF sinF fs inputPath outputPath opts rng =
        (true, some (.unsupportedFormat (extOf outputPath)))) := by
  constructor
  · intro hp hs
    simp only [supportedExt, Bool.or_eq_false_iff] at hs
    have h1 : ¬(extOf inputPath = ".jpg") := of_decide_eq_false hs.1.1
    have h2 : ¬(extOf inputPath = ".jpeg") := of_decide_eq_false hs.1.2
    have h3 : ¬(extOf inputPath = ".png") := of_decide_eq_false hs.2
    have hload : loadImage fs inputPath = .error (.unsupportedFormat (extOf inputPath)) := by
      unfold loadImage
      rw [if_pos hp]
      simp [h1, h2, h3]
    unfold ProcessFile
    rw [hload]
  · intro hload hproc hs
    simp only [supportedExt, Bool.or_eq_false_iff] at hs
    have h1 : ¬(extOf outputPath = ".jpg") := of_decide_eq_false hs.1.1
    have h2 : ¬(extOf outputPath = ".jpeg") := of_decide_eq_false hs.1.2
    have h3 : ¬(extOf outputPath = ".png") := of_decide_eq_false hs.2
    unfold ProcessFile
    rw [hload]
    simp only [hproc]
    unfold saveImage
    simp [h1, h2, h3]

/-- Witness for the amended C9: a .bmp input is rejected with no file
created; a .bmp output is rejected but the file at the output path has been
created. -/
theorem processfile_unsupported_extension_witness :
    ProcessFile testFrame blZero idQ idQ fsB "art.bmp" "out.png" optsNone rngZero =
      (false, some (.unsupportedFormat (extOf "art.bmp"))) ∧
    ProcessFile testFrame blZero idQ idQ fsTest "in.png" "out2.bmp" optsNone rngZero =
      (true, some (.unsupportedFormat (extOf "out2.bmp"))) :=
  ⟨(processfile_unsupported_extension testFrame blZero idQ idQ fsB "art.bmp" "out.png"
      optsNone rngZero testArt testArt).1 rfl (by decide),
   (processfile_unsupported_extension testFrame blZero idQ idQ fsTest "in.png" "out2.bmp"
      optsNone rngZero testArt
      (processBody testFrame blZero idQ idQ testArt optsNone rngZero)).2 rfl rfl (by decide)⟩
